import Mathlib

/-!
Verification development for the SAT-platform PDF extraction pipeline
(backend/app: models/ocr.py, services/ocr_service.py, tasks/ocr_tasks.py,
api/v1/endpoints/ocr.py).

Each Python data record is embedded as a Lean structure carrying the fields
the verified operations read or write; each operation is embedded as a pure
Lean function over those structures.  Database tables are lists of rows,
currency amounts are integer cents (Nat), and monetary/HTTP-retry delays are
rationals.  Fallible endpoints return Except with the HTTP status code as the
error value; an error return models the raised HTTPException, under which the
enclosing transaction is never committed.
-/

namespace SatPlatform

/-- Modelled from the spec: the OCR job lifecycle status enum
(`PENDING → PROCESSING → REVIEW → COMPLETED | FAILED | CANCELLED`).  The class
`OCRJobStatus` is imported from `app.models.enums` by all pipeline modules, but
its definition is not present under the provided sources; the constructor set
is exactly the set of states named by the spec (section 4.3) and used by the
code. -/
inductive OCRJobStatus where
  | pending
  | processing
  | review
  | completed
  | failed
  | cancelled
deriving DecidableEq

/-- Modelled from the spec: the extracted-entity review status enum
(`pending|approved|rejected|needs_edit|imported`).  The class
`QuestionReviewStatus` is imported from `app.models.enums`, whose definition is
not present under the provided sources; the constructor set is exactly the set
of values named by the spec (section 3) and used by the code. -/
inductive QuestionReviewStatus where
  | pending
  | approved
  | rejected
  | needsEdit
  | imported
deriving DecidableEq

/-! ## ExtractedQuestion readiness (models/ocr.py, `is_ready_for_import`) -/

/-- The fields of `ExtractedQuestion` (models/ocr.py) read by the
`is_ready_for_import` property.  `correct_answer` is a nullable JSON list of
answer strings; `validation_errors` is a nullable JSON list of error strings. -/
structure ReadinessFields where
  review_status : QuestionReviewStatus
  correct_answer : Option (List String)
  needs_answer : Bool
  validation_errors : Option (List String)

/-- Embedding of `ExtractedQuestion.is_ready_for_import` (models/ocr.py lines
307-315): `review_status == APPROVED and correct_answer is not None and not
needs_answer and not validation_errors`.  Python truthiness of the nullable
list `validation_errors` makes both `None` and the empty list falsy. -/
def is_ready_for_import (q : ReadinessFields) : Bool :=
  (q.review_status = QuestionReviewStatus.approved)
    && q.correct_answer.isSome
    && !q.needs_answer
    && (match q.validation_errors with
        | none => true
        | some errs => errs.isEmpty)

/-! ## Rate-limit backoff (services/ocr_service.py, `OCRClient._call_api`) -/

/-- Base delay computed by the 429 branch of `OCRClient._call_api`
(services/ocr_service.py lines 214-220): if a `Retry-After` header is present
and is a digit string, the base is `int(retry_after) + 1`; otherwise the base
is `5 * 2 ** min(attempt, 4)` seconds (5, 10, 20, 40, capped at 80). -/
def rateLimitBaseDelay (retryAfter : Option Nat) (attempt : Nat) : ℚ :=
  match retryAfter with
  | some r => (r : ℚ) + 1
  | none => 5 * 2 ^ min attempt 4

/-- Full delay for one 429 retry (services/ocr_service.py lines 221-223):
`delay = base_delay + jitter` where `jitter = random.uniform(0, base_delay * 0.5)`.
The random draw is passed in explicitly as `jitter`. -/
def rateLimitDelay (retryAfter : Option Nat) (attempt : Nat) (jitter : ℚ) : ℚ :=
  rateLimitBaseDelay retryAfter attempt + jitter

/-- A jitter value the code can draw for a given base delay:
`random.uniform(0, base_delay * 0.5)` yields a real in `[0, base/2]`. -/
def ValidJitter (retryAfter : Option Nat) (attempt : Nat) (j : ℚ) : Prop :=
  0 ≤ j ∧ j ≤ rateLimitBaseDelay retryAfter attempt / 2

/-- C9: For every ExtractedQuestion, `is_ready_for_import` holds if and only if
`review_status` equals approved, `correct_answer` is set (non-null),
`needs_answer` is false, and `validation_errors` is empty (null or the empty
list, both of which Python treats as no validation errors). -/
theorem is_ready_for_import_iff (q : ReadinessFields) :
    is_ready_for_import q = true ↔
      q.review_status = QuestionReviewStatus.approved
        ∧ q.correct_answer ≠ none
        ∧ q.needs_answer = false
        ∧ (q.validation_errors = none ∨ q.validation_errors = some []) := by
  unfold is_ready_for_import
  rcases q with ⟨rs, ca, na, ve⟩
  simp only [Bool.and_eq_true, decide_eq_true_eq, Bool.not_eq_true', Option.isSome_iff_ne_none]
  constructor
  · rintro ⟨⟨⟨h1, h2⟩, h3⟩, h4⟩
    refine ⟨h1, h2, h3, ?_⟩
    cases ve with
    | none => exact Or.inl rfl
    | some errs =>
      right
      simp only at h4
      simp [List.isEmpty_iff.mp h4]
  · rintro ⟨h1, h2, h3, h4⟩
    refine ⟨⟨⟨h1, h2⟩, h3⟩, ?_⟩
    rcases h4 with h | h <;> simp [h]

/-- C8: for a run of consecutive 429 responses on one outbound call, (a) the
default (no Retry-After) base delays are non-decreasing in the attempt index
and never exceed the 80-second cap; (b) below the cap the jittered delays are
strictly increasing, for any admissible jitter draws; (c) at a fixed attempt,
two concurrent callers whose uniform jitter draws differ receive different
delays; (d) a digit-valued Retry-After hint `r` is honored as the base delay:
the base becomes `r + 1`, which is at least the hint. -/
theorem rate_limit_backoff_schedule :
    (∀ t : Nat, rateLimitBaseDelay none t ≤ rateLimitBaseDelay none (t + 1)
        ∧ rateLimitBaseDelay none t ≤ 80)
    ∧ (∀ t : Nat, ∀ j j' : ℚ, t < 4 → ValidJitter none t j → ValidJitter none (t + 1) j' →
        rateLimitDelay none t j < rateLimitDelay none (t + 1) j')
    ∧ (∀ (ra : Option Nat) (t : Nat) (j j' : ℚ), j ≠ j' →
        rateLimitDelay ra t j ≠ rateLimitDelay ra t j')
    ∧ (∀ (r t : Nat), rateLimitBaseDelay (some r) t = (r : ℚ) + 1
        ∧ (r : ℚ) ≤ rateLimitBaseDelay (some r) t) := by
  refine ⟨?_, ?_, ?_, ?_⟩
  · intro t
    constructor
    · show (5:ℚ) * 2 ^ min t 4 ≤ 5 * 2 ^ min (t + 1) 4
      have h2 : (2:ℚ) ^ min t 4 ≤ 2 ^ min (t + 1) 4 :=
        pow_le_pow_right₀ (by norm_num) (by omega)
      linarith
    · show (5:ℚ) * 2 ^ min t 4 ≤ 80
      have h2 : (2:ℚ) ^ min t 4 ≤ 2 ^ 4 :=
        pow_le_pow_right₀ (by norm_num) (by omega)
      norm_num at h2 ⊢
      linarith
  · intro t j j' ht hj hj'
    have hmin : min t 4 = t := by omega
    have hmin' : min (t + 1) 4 = t + 1 := by omega
    rcases hj with ⟨hj0, hjle⟩
    rcases hj' with ⟨hj'0, _⟩
    unfold rateLimitDelay rateLimitBaseDelay at *
    simp only [hmin, hmin'] at *
    have hpow : (0:ℚ) < 2 ^ t := by positivity
    have hsucc : (2:ℚ) ^ (t + 1) = 2 * 2 ^ t := by ring
    rw [hsucc]
    linarith
  · intro ra t j j' hne
    unfold rateLimitDelay
    intro h
    exact hne (by linarith)
  · intro r t
    exact ⟨rfl, by simp [rateLimitBaseDelay]⟩

/-- Witness for `rate_limit_backoff_schedule`: the inner hypotheses are
discharged at concrete values (attempt 1 with jitter draws 2 and 5,
Retry-After hint 30). -/
theorem rate_limit_backoff_schedule_witness :
    rateLimitBaseDelay none 1 ≤ rateLimitBaseDelay none 2
      ∧ rateLimitDelay none 1 2 < rateLimitDelay none 2 5
      ∧ rateLimitDelay none 1 2 ≠ rateLimitDelay none 1 3
      ∧ rateLimitBaseDelay (some 30) 0 = 31 := by
  obtain ⟨h1, h2, h3, h4⟩ := rate_limit_backoff_schedule
  refine ⟨(h1 1).1, ?_, ?_, ?_⟩
  · exact h2 1 2 5 (by norm_num)
      ⟨by norm_num, by norm_num [rateLimitBaseDelay]⟩
      ⟨by norm_num, by norm_num [rateLimitBaseDelay]⟩
  · exact h3 none 1 2 3 (by norm_num)
  · have := (h4 30 0).1
    norm_num at this ⊢
    exact this

/-! ## Generic list machinery

A small stable insertion sort over a boolean total preorder, used to model
SQL `ORDER BY`, together with counting lemmas used to reason about row
selections. -/

/-- Insert an element into a list in front of the first element it is
`le`-below. -/
def insertLe {α : Type} (le : α → α → Bool) (a : α) : List α → List α
  | [] => [a]
  | b :: l => if le a b then a :: b :: l else b :: insertLe le a l

/-- Insertion sort with respect to a boolean relation. -/
def sortLe {α : Type} (le : α → α → Bool) : List α → List α
  | [] => []
  | a :: l => insertLe le a (sortLe le l)

theorem insertLe_perm {α : Type} (le : α → α → Bool) (a : α) (l : List α) :
    List.Perm (insertLe le a l) (a :: l) := by
  induction l with
  | nil => rfl
  | cons b t ih =>
    unfold insertLe
    by_cases h : le a b
    · simp [h]
    · simp only [h, if_neg]
      simp only [Bool.false_eq_true, if_false]
      exact (ih.cons b).trans (List.Perm.swap a b t)

theorem sortLe_perm {α : Type} (le : α → α → Bool) (l : List α) :
    List.Perm (sortLe le l) l := by
  induction l with
  | nil => rfl
  | cons a t ih => exact (insertLe_perm le a (sortLe le t)).trans (ih.cons a)

theorem insertLe_sorted {α : Type} (le : α → α → Bool)
    (htot : ∀ a b, le a b = true ∨ le b a = true)
    (htrans : ∀ a b c, le a b = true → le b c = true → le a c = true)
    (a : α) (l : List α)
    (h : l.Pairwise (fun x y => le x y = true)) :
    (insertLe le a l).Pairwise (fun x y => le x y = true) := by
  induction l with
  | nil => simp [insertLe]
  | cons b t ih =>
    unfold insertLe
    by_cases hab : le a b
    · simp only [hab, if_true]
      refine List.Pairwise.cons ?_ h
      intro y hy
      rcases List.mem_cons.mp hy with h1 | h1
      · subst h1; exact hab
      · rcases h with _ | ⟨hb, _⟩
        exact htrans a b y hab (hb y h1)
    · simp only [hab, Bool.false_eq_true, if_false]
      rcases h with _ | ⟨hb, ht⟩
      refine List.Pairwise.cons ?_ (ih ht)
      intro y hy
      have hy' := (insertLe_perm le a t).mem_iff.mp hy
      rcases List.mem_cons.mp hy' with h1 | h1
      · subst h1
        rcases htot b y with h2 | h2
        · exact h2
        · exact absurd h2 (by simpa using hab)
      · exact hb y h1

theorem sortLe_sorted {α : Type} (le : α → α → Bool)
    (htot : ∀ a b, le a b = true ∨ le b a = true)
    (htrans : ∀ a b c, le a b = true → le b c = true → le a c = true)
    (l : List α) :
    (sortLe le l).Pairwise (fun x y => le x y = true) := by
  induction l with
  | nil => exact List.Pairwise.nil
  | cons a t ih => exact insertLe_sorted le htot htrans a (sortLe le t) ih

theorem sortLe_nodup {α : Type} (le : α → α → Bool) (f : α → Nat) (l : List α)
    (h : (l.map f).Nodup) : ((sortLe le l).map f).Nodup :=
  ((sortLe_perm le l).map f).nodup_iff.mpr h

theorem sortLe_mem {α : Type} (le : α → α → Bool) (l : List α) (a : α) :
    a ∈ sortLe le l ↔ a ∈ l := (sortLe_perm le l).mem_iff

/-- The first components of a `filterMap` that keeps its input in the first
component form a sublist of the original list. -/
theorem filterMap_fst_sublist {α β : Type} (f : α → Option β) (g : β → α)
    (l : List α) (hfg : ∀ a b, f a = some b → g b = a) :
    List.Sublist ((l.filterMap f).map g) l := by
  induction l with
  | nil => simp
  | cons a t ih =>
    rw [List.filterMap_cons]
    cases hfa : f a with
    | none => exact ih.cons a
    | some b =>
      rw [List.map_cons, hfg a b hfa]
      exact ih.cons₂ a

/-- Two Nodup lists that contain each other have equal lengths. -/
theorem nodup_mutual_subset_length {α : Type} [DecidableEq α] (l₁ l₂ : List α)
    (h₁ : l₁.Nodup) (h₂ : l₂.Nodup) (s₁ : l₁ ⊆ l₂) (s₂ : l₂ ⊆ l₁) :
    l₁.length = l₂.length :=
  Nat.le_antisymm (h₁.subperm s₁).length_le (h₂.subperm s₂).length_le

/-! ## Reviewer Import Gateway (api/v1/endpoints/ocr.py, `import_questions`)

Row types carry the columns the endpoint reads or writes; the question payload
is represented by its `question_text` column (the remaining payload columns are
copied verbatim in the same statement and play no role in selection, ordering
or numbering). -/

/-- A row of `ocr_job_pages` as seen by the import join (id and page number). -/
structure PageRow where
  id : Nat
  jobId : Nat
  pageNumber : Nat
deriving DecidableEq

/-- A row of `extracted_questions` as seen by the import endpoint. -/
structure EQRow where
  id : Nat
  jobId : Nat
  sourcePageId : Nat
  reviewStatus : QuestionReviewStatus
  importedQuestionId : Option Nat
  questionText : String
deriving DecidableEq

/-- A production `questions` row created by import. -/
structure QuestionRow where
  id : Nat
  moduleId : Nat
  questionNumber : Nat
  questionText : String
deriving DecidableEq

/-- A row of `ocr_jobs` as seen by the import endpoint. -/
structure ImpJob where
  id : Nat
  userId : Nat
  importedQuestions : Nat
  status : OCRJobStatus
deriving DecidableEq

/-- The database tables touched by the import endpoint.  `nextQuestionId`
models the production-question primary-key sequence consumed by
`db.flush()`. -/
structure ImportDB where
  jobs : List ImpJob
  moduleIds : List Nat
  pages : List PageRow
  extracted : List EQRow
  questions : List QuestionRow
  nextQuestionId : Nat
deriving DecidableEq

/-- The SQL sort key of the import query:
`ORDER BY OCRJobPage.page_number, ExtractedQuestion.id` (ocr.py line 944). -/
def pageLe (a b : EQRow × Nat) : Bool :=
  decide (a.2 < b.2) || (decide (a.2 = b.2) && decide (a.1.id ≤ b.1.id))

/-- The rows matched by the import query before the optional id filter
(ocr.py lines 938-945): `extracted_questions` inner-joined to `ocr_job_pages`
on `source_page_id`, restricted to this job, `review_status == APPROVED` and
`imported_question_id IS NULL`.  Each selected question is paired with the
page number of its source page. -/
def importCandidates (db : ImportDB) (jobId : Nat) : List (EQRow × Nat) :=
  db.extracted.filterMap fun q =>
    if q.jobId = jobId ∧ q.reviewStatus = QuestionReviewStatus.approved
        ∧ q.importedQuestionId = none then
      (db.pages.find? (fun p => p.id == q.sourcePageId)).map fun p => (q, p.pageNumber)
    else none

/-- The full import query (ocr.py lines 938-951): candidate rows, narrowed to
`question_ids` when that request field is truthy (a non-empty list), ordered by
`(page_number, id)`. -/
def importSelection (db : ImportDB) (jobId : Nat) (qids : List Nat) : List (EQRow × Nat) :=
  let base := importCandidates db jobId
  sortLe pageLe (if qids.isEmpty then base else base.filter fun r => qids.contains r.1.id)

/-- `SELECT MAX(question_number) WHERE module_id = target` with `or 0` for an
empty module (ocr.py lines 957-961). -/
def currentMaxNumber (qs : List QuestionRow) (moduleId : Nat) : Nat :=
  ((qs.filter fun r => r.moduleId == moduleId).map fun r => r.questionNumber).foldr max 0

/-- The import loop body (ocr.py lines 966-990): the `i`-th selected question
produces a production row numbered `current_max + i + 1` with a fresh primary
key, paired with the extracted row it came from.  `num` is the number for the
next row and `nid` the next primary key. -/
def importPairs (moduleId : Nat) : Nat → Nat → List EQRow → List (EQRow × QuestionRow)
  | _, _, [] => []
  | num, nid, q :: rest =>
    (q, ⟨nid, moduleId, num, q.questionText⟩) :: importPairs moduleId (num + 1) (nid + 1) rest

/-- The write-back of the loop (ocr.py lines 986-988): each imported extracted
row has `imported_question_id` set to its new production row's id and
`review_status` set to `IMPORTED`; other rows are untouched. -/
def applyImportMarks (extracted : List EQRow) (pairs : List (EQRow × QuestionRow)) :
    List EQRow :=
  extracted.map fun e =>
    match pairs.find? (fun pr => pr.1.id == e.id) with
    | some pr =>
      { e with reviewStatus := QuestionReviewStatus.imported,
               importedQuestionId := some pr.2.id }
    | none => e

/-- The committed effect of a successful import call: production rows appended,
extracted rows marked and linked, job counters updated and the job marked
COMPLETED (ocr.py lines 963-999). -/
def importApply (db : ImportDB) (jobId moduleId : Nat) (sel : List (EQRow × Nat)) :
    ImportDB :=
  let m := currentMaxNumber db.questions moduleId
  let pairs := importPairs moduleId (m + 1) db.nextQuestionId (sel.map Prod.fst)
  { db with
    questions := db.questions ++ pairs.map Prod.snd
    extracted := applyImportMarks db.extracted pairs
    nextQuestionId := db.nextQuestionId + sel.length
    jobs := db.jobs.map fun j =>
      if j.id == jobId then
        { j with importedQuestions := j.importedQuestions + sel.length,
                 status := OCRJobStatus.completed }
      else j }

/-- Embedding of the `POST /jobs/.../import` endpoint (ocr.py lines 911-1001):
verify the job exists and belongs to the caller (else 404), verify the target
module exists (else 404), run the selection query, fail with 400 when it is
empty, otherwise create the production rows and mark the extracted rows.  The
successful payload is the `imported` count. -/
def importQuestionsEndpoint (db : ImportDB) (userId jobId moduleId : Nat)
    (qids : List Nat) : Except Nat (Nat × ImportDB) :=
  match db.jobs.find? (fun j => j.id == jobId && j.userId == userId) with
  | none => Except.error 404
  | some _ =>
    if db.moduleIds.contains moduleId then
      if (importSelection db jobId qids).isEmpty then Except.error 400
      else Except.ok ((importSelection db jobId qids).length,
        importApply db jobId moduleId (importSelection db jobId qids))
    else Except.error 404

theorem importPairs_map_fst (m num nid : Nat) (l : List EQRow) :
    (importPairs m num nid l).map Prod.fst = l := by
  induction l generalizing num nid with
  | nil => rfl
  | cons q rest ih => simp [importPairs, ih]

theorem importPairs_length (m num nid : Nat) (l : List EQRow) :
    (importPairs m num nid l).length = l.length := by
  induction l generalizing num nid with
  | nil => rfl
  | cons q rest ih => simp [importPairs, ih]

theorem importPairs_numbers (m num nid : Nat) (l : List EQRow) :
    (importPairs m num nid l).map (fun pr => pr.2.questionNumber)
      = List.range' num l.length := by
  induction l generalizing num nid with
  | nil => rfl
  | cons q rest ih =>
    rw [List.length_cons, List.range'_succ]
    simp [importPairs, ih]

theorem mem_importCandidates {db : ImportDB} {jobId : Nat} {r : EQRow × Nat}
    (h : r ∈ importCandidates db jobId) :
    r.1 ∈ db.extracted ∧ r.1.jobId = jobId
      ∧ r.1.reviewStatus = QuestionReviewStatus.approved
      ∧ r.1.importedQuestionId = none := by
  obtain ⟨q, hq, hfq⟩ := List.mem_filterMap.mp h
  by_cases hcond : q.jobId = jobId ∧ q.reviewStatus = QuestionReviewStatus.approved
      ∧ q.importedQuestionId = none
  · rw [if_pos hcond] at hfq
    obtain ⟨p, _, hp⟩ := Option.map_eq_some.mp hfq
    have hr1 : r.1 = q := by rw [← hp]
    rw [hr1]
    exact ⟨hq, hcond⟩
  · rw [if_neg hcond] at hfq
    exact absurd hfq (by simp)

theorem mem_importSelection {db : ImportDB} {jobId : Nat} {qids : List Nat}
    {r : EQRow × Nat} (h : r ∈ importSelection db jobId qids) :
    r ∈ importCandidates db jobId := by
  unfold importSelection at h
  have h' := (sortLe_mem _ _ _).mp h
  by_cases he : qids.isEmpty
  · rwa [if_pos he] at h'
  · rw [if_neg he] at h'
    exact (List.mem_filter.mp h').1

theorem importCandidates_fst_sublist (db : ImportDB) (jobId : Nat) :
    List.Sublist ((importCandidates db jobId).map Prod.fst) db.extracted := by
  apply filterMap_fst_sublist
  intro a b hab
  by_cases hcond : a.jobId = jobId ∧ a.reviewStatus = QuestionReviewStatus.approved
      ∧ a.importedQuestionId = none
  · rw [if_pos hcond] at hab
    obtain ⟨p, _, hp⟩ := Option.map_eq_some.mp hab
    rw [← hp]
  · rw [if_neg hcond] at hab
    exact absurd hab (by simp)

theorem importSelection_ids_nodup (db : ImportDB) (jobId : Nat) (qids : List Nat)
    (h : (db.extracted.map EQRow.id).Nodup) :
    ((importSelection db jobId qids).map fun r => r.1.id).Nodup := by
  unfold importSelection
  apply sortLe_nodup
  have hcand : ((importCandidates db jobId).map fun r => r.1.id).Nodup := by
    have hsub := (importCandidates_fst_sublist db jobId).map EQRow.id
    rw [List.map_map] at hsub
    exact h.sublist hsub
  by_cases he : qids.isEmpty
  · rwa [if_pos he]
  · rw [if_neg he]
    exact hcand.sublist ((List.filter_sublist _).map _)

theorem pageLe_total (a b : EQRow × Nat) : pageLe a b = true ∨ pageLe b a = true := by
  simp only [pageLe, Bool.or_eq_true, Bool.and_eq_true, decide_eq_true_eq]
  omega

theorem pageLe_trans (a b c : EQRow × Nat) (h1 : pageLe a b = true)
    (h2 : pageLe b c = true) : pageLe a c = true := by
  simp only [pageLe, Bool.or_eq_true, Bool.and_eq_true, decide_eq_true_eq] at *
  omega

theorem importApply_extracted (db : ImportDB) (jobId moduleId : Nat)
    (sel : List (EQRow × Nat)) :
    (importApply db jobId moduleId sel).extracted
      = applyImportMarks db.extracted
          (importPairs moduleId (currentMaxNumber db.questions moduleId + 1)
            db.nextQuestionId (sel.map Prod.fst)) := rfl

theorem importApply_questions (db : ImportDB) (jobId moduleId : Nat)
    (sel : List (EQRow × Nat)) :
    (importApply db jobId moduleId sel).questions
      = db.questions
          ++ (importPairs moduleId (currentMaxNumber db.questions moduleId + 1)
                db.nextQuestionId (sel.map Prod.fst)).map Prod.snd := rfl

theorem importQuestionsEndpoint_ok {db : ImportDB} {userId jobId moduleId : Nat}
    {qids : List Nat} {n : Nat} {db' : ImportDB}
    (h : importQuestionsEndpoint db userId jobId moduleId qids = Except.ok (n, db')) :
    n = (importSelection db jobId qids).length
      ∧ db' = importApply db jobId moduleId (importSelection db jobId qids) := by
  unfold importQuestionsEndpoint at h
  split at h
  · exact absurd h (by simp)
  · split at h
    · split at h
      · exact absurd h (by simp)
      · have := Except.ok.inj h
        exact ⟨(Prod.mk.injEq _ _ _ _ ▸ this).1.symm, (Prod.mk.injEq _ _ _ _ ▸ this).2.symm⟩
    · exact absurd h (by simp)

theorem pairs_find_of_mem {m num nid : Nat} {l : List EQRow} {q : EQRow}
    (hq : q ∈ l) :
    ∃ pr, (importPairs m num nid l).find? (fun pr => pr.1.id == q.id) = some pr
      ∧ pr ∈ importPairs m num nid l ∧ pr.1.id = q.id := by
  have hmem : q ∈ (importPairs m num nid l).map Prod.fst := by
    rw [importPairs_map_fst]; exact hq
  obtain ⟨pr0, hpr0, hfst⟩ := List.mem_map.mp hmem
  have hsome : ((importPairs m num nid l).find? (fun pr => pr.1.id == q.id)).isSome := by
    rw [List.find?_isSome]
    exact ⟨pr0, hpr0, by rw [hfst]; simp⟩
  obtain ⟨pr, hpr⟩ := Option.isSome_iff_exists.mp hsome
  refine ⟨pr, hpr, List.mem_of_find?_eq_some hpr, ?_⟩
  have := List.find?_some hpr
  simpa using this

theorem applyImportMarks_id_of_mem {extracted : List EQRow}
    {pairs : List (EQRow × QuestionRow)} {e' : EQRow}
    (h : e' ∈ applyImportMarks extracted pairs) :
    ∃ e ∈ extracted, e'.id = e.id
      ∧ (∀ pr, pairs.find? (fun pr => pr.1.id == e.id) = some pr →
          e' = { e with reviewStatus := QuestionReviewStatus.imported,
                        importedQuestionId := some pr.2.id })
      ∧ (pairs.find? (fun pr => pr.1.id == e.id) = none → e' = e) := by
  obtain ⟨e, he, hfe⟩ := List.mem_map.mp h
  refine ⟨e, he, ?_, ?_, ?_⟩
  · cases hf : pairs.find? (fun pr => pr.1.id == e.id) with
    | none => rw [← hfe]; simp [hf]
    | some pr => rw [← hfe]; simp [hf]
  · intro pr hpr
    rw [← hfe]; simp [hpr]
  · intro hpr
    rw [← hfe]; simp [hpr]

/-- C1: import is idempotent per question.  For any successful import call and
any row `r` it selected: (a) afterwards the extracted question carries
`review_status = imported` and a link `imported_question_id` to a production
row that exists in the questions table; (b) any later import query for the job
selects zero rows for that question (already-imported rows are excluded by the
`imported_question_id IS NULL` filter); (c) any later successful import call
creates exactly one production row per row of its own selection — combined
with (b), none for the already-imported question. -/
theorem import_is_idempotent_per_question
    (db : ImportDB) (userId jobId moduleId : Nat) (qids : List Nat)
    (n : Nat) (db' : ImportDB)
    (hids : (db.extracted.map EQRow.id).Nodup)
    (hrun : importQuestionsEndpoint db userId jobId moduleId qids = Except.ok (n, db'))
    (r : EQRow × Nat) (hr : r ∈ importSelection db jobId qids) :
    (∃ q' ∈ db'.extracted, q'.id = r.1.id
        ∧ q'.reviewStatus = QuestionReviewStatus.imported
        ∧ ∃ pid, q'.importedQuestionId = some pid ∧ ∃ pq ∈ db'.questions, pq.id = pid)
    ∧ (∀ qids2 : List Nat,
        (importSelection db' jobId qids2).filter (fun r2 => r2.1.id == r.1.id) = [])
    ∧ (∀ (userId2 moduleId2 n2 : Nat) (qids2 : List Nat) (db2 : ImportDB),
        importQuestionsEndpoint db' userId2 jobId moduleId2 qids2
            = Except.ok (n2, db2) →
        db2.questions.length
          = db'.questions.length + (importSelection db' jobId qids2).length) := by
  obtain ⟨hn, hdb⟩ := importQuestionsEndpoint_ok hrun
  have hr1mem : r.1 ∈ db.extracted := (mem_importCandidates (mem_importSelection hr)).1
  have hrsel : r.1 ∈ (importSelection db jobId qids).map Prod.fst :=
    List.mem_map_of_mem Prod.fst hr
  obtain ⟨pr, hfind, hprmem, hprid⟩ := @pairs_find_of_mem moduleId
    (currentMaxNumber db.questions moduleId + 1) db.nextQuestionId _ _ hrsel
  refine ⟨?_, ?_, ?_⟩
  · refine ⟨({ r.1 with
        reviewStatus := QuestionReviewStatus.imported,
        importedQuestionId := some pr.2.id } : EQRow), ?_, rfl, rfl, pr.2.id, rfl, ?_⟩
    · rw [hdb, importApply_extracted]
      exact List.mem_map.mpr ⟨r.1, hr1mem, by simp [hfind]⟩
    · refine ⟨pr.2, ?_, rfl⟩
      rw [hdb, importApply_questions]
      exact List.mem_append_right _ (List.mem_map_of_mem Prod.snd hprmem)
  · intro qids2
    rw [List.filter_eq_nil_iff]
    intro r2 hr2
    have hc2 := mem_importCandidates (mem_importSelection hr2)
    simp only [beq_iff_eq]
    intro heq
    have hr2ex : r2.1 ∈ db'.extracted := hc2.1
    rw [hdb, importApply_extracted] at hr2ex
    obtain ⟨e, he, hide, hsomecase, _⟩ := applyImportMarks_id_of_mem hr2ex
    have heid : e.id = r.1.id := by rw [← hide, heq]
    have hee : e = r.1 := by
      have hinj := List.inj_on_of_nodup_map hids
      exact hinj he hr1mem heid
    subst hee
    have hr2eq := hsomecase pr (by rw [heid]; exact hfind)
    have : r2.1.importedQuestionId = some pr.2.id := by rw [hr2eq]
    rw [hc2.2.2.2] at this
    exact absurd this (by simp)
  · intro userId2 moduleId2 n2 qids2 db2 h2
    obtain ⟨_, hdb2⟩ := importQuestionsEndpoint_ok h2
    rw [hdb2, importApply_questions, List.length_append, List.length_map,
      importPairs_length, List.length_map]

/-- C2: a successful import selects the approved, not-yet-imported questions of
the job, orders them by ascending source page number (with the entity id only
breaking ties within one page), and numbers the created production rows
consecutively from the target module's previous maximum in that order. -/
theorem import_orders_by_page_number
    (db : ImportDB) (userId jobId moduleId : Nat) (qids : List Nat)
    (n : Nat) (db' : ImportDB)
    (hrun : importQuestionsEndpoint db userId jobId moduleId qids = Except.ok (n, db')) :
    ((importSelection db jobId qids).map Prod.snd).Pairwise (· ≤ ·)
    ∧ (db'.questions.drop db.questions.length).map QuestionRow.questionNumber
        = List.range' (currentMaxNumber db.questions moduleId + 1)
            (importSelection db jobId qids).length
    ∧ ∀ r ∈ importSelection db jobId qids,
        r.1.jobId = jobId ∧ r.1.reviewStatus = QuestionReviewStatus.approved
          ∧ r.1.importedQuestionId = none := by
  obtain ⟨hn, hdb⟩ := importQuestionsEndpoint_ok hrun
  refine ⟨?_, ?_, ?_⟩
  · have hsorted : (importSelection db jobId qids).Pairwise
        (fun x y => pageLe x y = true) := by
      unfold importSelection
      exact sortLe_sorted pageLe pageLe_total pageLe_trans _
    refine List.pairwise_map.mpr (hsorted.imp ?_)
    intro a b hab
    simp only [pageLe, Bool.or_eq_true, Bool.and_eq_true, decide_eq_true_eq] at hab
    omega
  · rw [hdb, importApply_questions, List.drop_left, List.map_map]
    have := importPairs_numbers moduleId (currentMaxNumber db.questions moduleId + 1)
      db.nextQuestionId ((importSelection db jobId qids).map Prod.fst)
    rw [List.length_map] at this
    exact this
  · intro r hr
    exact (mem_importCandidates (mem_importSelection hr)).2

/-- Concrete database for the C1 witness: one job (id 1, owner 7), one module
(id 2), one page and one approved, not-yet-imported extracted question. -/
def c1db : ImportDB :=
  { jobs := [⟨1, 7, 0, OCRJobStatus.review⟩]
    moduleIds := [2]
    pages := [⟨10, 1, 1⟩]
    extracted := [⟨5, 1, 10, QuestionReviewStatus.approved, none, "q one"⟩]
    questions := []
    nextQuestionId := 100 }

/-- The single row selected by the first import call on `c1db`. -/
def c1row : EQRow × Nat := (⟨5, 1, 10, QuestionReviewStatus.approved, none, "q one"⟩, 1)

/-- The database after the first import call on `c1db`. -/
def c1dbAfter : ImportDB := importApply c1db 1 2 (importSelection c1db 1 [])

/-- Witness for `import_is_idempotent_per_question`: on the concrete database
the hypotheses hold and, after a first import of question 5, a second
selection for the job picks zero rows with that question's id. -/
theorem import_is_idempotent_per_question_witness :
    (c1db.extracted.map EQRow.id).Nodup
    ∧ c1row ∈ importSelection c1db 1 []
    ∧ (importSelection c1dbAfter 1 []).filter (fun r2 => r2.1.id == c1row.1.id) = [] := by
  have h := import_is_idempotent_per_question c1db 7 1 2 [] 1 c1dbAfter
    (by decide) (by rfl) c1row (by decide)
  exact ⟨by decide, by decide, h.2.1 []⟩

/-- Concrete database for the C2 witness: three approved questions whose
source pages were processed out of order (entity ids 21, 22, 23 sit on pages
3, 1, 2 respectively). -/
def c2db : ImportDB :=
  { jobs := [⟨1, 7, 0, OCRJobStatus.review⟩]
    moduleIds := [3]
    pages := [⟨10, 1, 3⟩, ⟨11, 1, 1⟩, ⟨12, 1, 2⟩]
    extracted :=
      [⟨21, 1, 10, QuestionReviewStatus.approved, none, "on page three"⟩,
       ⟨22, 1, 11, QuestionReviewStatus.approved, none, "on page one"⟩,
       ⟨23, 1, 12, QuestionReviewStatus.approved, none, "on page two"⟩]
    questions := []
    nextQuestionId := 200 }

/-- The database after importing `c2db` into module 3. -/
def c2dbAfter : ImportDB := importApply c2db 1 3 (importSelection c2db 1 [])

/-- Witness for `import_orders_by_page_number`: importing questions whose
source pages are 3, 1, 2 picks them in page order 1, 2, 3 (entity ids
22, 23, 21) and numbers them 1, 2, 3 from the module's empty maximum. -/
theorem import_orders_by_page_number_witness :
    ((importSelection c2db 1 []).map Prod.snd).Pairwise (· ≤ ·)
    ∧ (c2dbAfter.questions.drop c2db.questions.length).map QuestionRow.questionNumber
        = List.range' (currentMaxNumber c2db.questions 3 + 1)
            (importSelection c2db 1 []).length
    ∧ (importSelection c2db 1 []).map (fun r => r.1.id) = [22, 23, 21]
    ∧ c2dbAfter.questions.map QuestionRow.questionNumber = [1, 2, 3] := by
  have h := import_orders_by_page_number c2db 7 1 3 [] 3 c2dbAfter (by rfl)
  exact ⟨h.1, h.2.1, by decide, by decide⟩

/-! ## Pipeline Orchestrator (tasks/ocr_tasks.py, `_process_pdf_job_async`)

The orchestrator's main loop is embedded as a fold over fixed-size batches of
page numbers.  The per-page external work (OCR + structuring provider calls,
performed by `ocr_client.process_page_batch`) is abstracted as a function
`res : Nat → PageResult` giving each page's outcome; the loop's reads and
writes of job and page rows are modelled exactly.

One SQLAlchemy detail is load-bearing and modelled explicitly: the task's
session is created with `expire_on_commit=False`, and `job.pages` is loaded
once by `selectinload` when the job row is fetched (lines 85-90).  New
`OCRJobPage` rows are added with `db.add(page_record)` and only their
`job_id` foreign key set (never the `job` relationship), which does not append
them to the already-loaded `job.pages` collection, and nothing expires that
collection.  Consequently every later read of `job.pages` in the task — the
completed-page scan at line 118 and the cost sum at line 280 — sees the
snapshot taken at task start.  In this embedding the snapshot is the `pages`
field of the state the run starts from, while the rows persisted by the run
are that snapshot plus the rows the run appends. -/

/-- `settings.ocr_batch_size` (core/config.py line 133): pages per batch,
the checkpoint granularity. -/
def ocrBatchSize : Nat := 10

/-- The outcome of the external processing of one page, as read by the
save loop (ocr_tasks.py lines 189-236): the dict produced by
`process_page_batch` for that page.  `questionCount` is the length of its
`questions` list. -/
structure PageResult where
  ocrMarkdown : String
  isQuestionPage : Bool
  ocrCostCents : Nat
  structuringCostCents : Nat
  errorMessage : Option String
  questionCount : Nat
deriving DecidableEq

/-- A persisted `ocr_job_pages` row as written by the orchestrator
(ocr_tasks.py lines 193-206). -/
structure PageRec where
  pageNumber : Nat
  ocrMarkdown : String
  isQuestionPage : Bool
  ocrCompleted : Bool
  structuringCompleted : Bool
  ocrCostCents : Nat
  structuringCostCents : Nat
  errorMessage : Option String
deriving DecidableEq

/-- A persisted `extracted_questions` row at the granularity the pipeline
claims need: which page it was extracted from, and its position among that
page's extracted questions. -/
structure PipeQuestion where
  sourcePageNumber : Nat
  indexOnPage : Nat
deriving DecidableEq

/-- The persisted job-plus-children state read and written by the orchestrator
tasks: the `ocr_jobs` counters and status plus the job's page and extracted
question rows. -/
structure PipeState where
  status : OCRJobStatus
  totalPages : Nat
  processedPages : Nat
  questionPages : Nat
  skippedPages : Nat
  extractedQuestions : Nat
  actualCostCents : Nat
  retryCount : Nat
  pages : List PageRec
  questions : List PipeQuestion
deriving DecidableEq

/-- Partition a list into consecutive chunks of size `B` (the loop
`for batch_start in range(0, total_pages, batch_size)` of ocr_tasks.py line
126).  The first argument of `chunksGo` is fuel bounding the recursion. -/
def chunksGo {α : Type} (B : Nat) : Nat → List α → List (List α)
  | 0, _ => []
  | _, [] => []
  | fuel + 1, a :: l => ((a :: l).take B) :: chunksGo B fuel ((a :: l).drop B)

/-- The batches of a list: chunks of `B` consecutive elements. -/
def chunksOf {α : Type} (B : Nat) (l : List α) : List (List α) :=
  chunksGo B l.length l

/-- The page row written for a processed page (ocr_tasks.py lines 193-206):
`ocr_completed` is always set to `True`; `structuring_completed` mirrors the
classification flag. -/
def mkPageRec (k : Nat) (r : PageResult) : PageRec :=
  { pageNumber := k
    ocrMarkdown := r.ocrMarkdown
    isQuestionPage := r.isQuestionPage
    ocrCompleted := true
    structuringCompleted := r.isQuestionPage
    ocrCostCents := r.ocrCostCents
    structuringCostCents := r.structuringCostCents
    errorMessage := r.errorMessage }

/-- The extracted-question rows written for a processed page (ocr_tasks.py
lines 211-244), one per entry of the page result's `questions` list. -/
def mkPipeQuestions (k : Nat) (r : PageResult) : List PipeQuestion :=
  (List.range r.questionCount).map fun i => { sourcePageNumber := k, indexOnPage := i }

/-- The `processed_page_nums` set (ocr_tasks.py lines 117-120): page numbers
of loaded page rows whose `ocr_completed` flag is set. -/
def completedNums (pages : List PageRec) : List Nat :=
  (pages.filter fun p => p.ocrCompleted).map fun p => p.pageNumber

/-- Sum of per-page costs over a list of page rows
(`sum(p.ocr_cost_cents + p.structuring_cost_cents for p in ...)`,
ocr_tasks.py line 280). -/
def pageCostSum (pages : List PageRec) : Nat :=
  (pages.map fun p => p.ocrCostCents + p.structuringCostCents).sum

/-- One iteration of the batch loop (ocr_tasks.py lines 126-267).  The
accumulator is the in-memory job state plus the running length of the
task-local `all_questions` list.  Pages already in `processed_page_nums` are
skipped before rendering; if nothing remains in the batch the loop `continue`s
without touching the database; otherwise the batch's page rows and question
rows are written, the per-page counters incremented, and
`job.extracted_questions` set to `len(all_questions)` so far. -/
def processBatchStep (res : Nat → PageResult) (completed : List Nat)
    (acc : PipeState × Nat) (batch : List Nat) : PipeState × Nat :=
  let toProcess := batch.filter fun k => !(completed.contains k)
  if toProcess.isEmpty then acc
  else
    let s := acc.1
    let newQs := toProcess.flatMap fun k => mkPipeQuestions k (res k)
    let rc := acc.2 + newQs.length
    ({ s with
        processedPages := s.processedPages + toProcess.length
        questionPages :=
          s.questionPages + (toProcess.filter fun k => (res k).isQuestionPage).length
        skippedPages :=
          s.skippedPages + (toProcess.filter fun k => !(res k).isQuestionPage).length
        extractedQuestions := rc
        pages := s.pages ++ (toProcess.map fun k => mkPageRec k (res k))
        questions := s.questions ++ newQs },
      rc)

/-- Embedding of a successful run of `_process_pdf_job_async` (ocr_tasks.py
lines 79-293) over a document of `docPages` pages: set PROCESSING, record
`total_pages` from the opened document, scan the loaded pages for completed
page numbers once, run the batch loop, then set REVIEW, overwrite
`extracted_questions` with the run's total and set `actual_cost_cents` to the
cost sum over `job.pages` — which, per the module comment above, is the
collection snapshot loaded at task start, not the rows written by this run. -/
def processPdfJob (s0 : PipeState) (docPages : Nat) (res : Nat → PageResult) :
    PipeState :=
  let s2 := { s0 with status := OCRJobStatus.processing, totalPages := docPages }
  let completed := completedNums s0.pages
  let batches := chunksOf ocrBatchSize (List.range' 1 docPages)
  let fin := batches.foldl (processBatchStep res completed) (s2, 0)
  { fin.1 with
      status := OCRJobStatus.review
      extractedQuestions := fin.2
      actualCostCents := pageCostSum s0.pages }

/-- The pages selected for retry by `_retry_failed_pages_async` (ocr_tasks.py
lines 664-670): an explicit page-number list, or by default the pages with an
error recorded and OCR incomplete. -/
def retryPred (pageNumbers : Option (List Nat)) (p : PageRec) : Bool :=
  match pageNumbers with
  | some ns => ns.contains p.pageNumber
  | none => p.errorMessage.isSome && !p.ocrCompleted

/-- Embedding of `_retry_failed_pages_async` (ocr_tasks.py lines 651-694)
up to the point where it requeues `process_pdf_job`: if any page matches, the
job is set back to PROCESSING and each matching page row has its completion
flags cleared and its error erased.  `job.processed_pages` (and the other
job counters) are not touched. -/
def retryFailedPages (s : PipeState) (pageNumbers : Option (List Nat)) : PipeState :=
  let toRetry := s.pages.filter (retryPred pageNumbers)
  if toRetry.isEmpty then s
  else
    { s with
        status := OCRJobStatus.processing
        pages := s.pages.map fun p =>
          if retryPred pageNumbers p then
            { p with ocrCompleted := false, structuringCompleted := false,
                     errorMessage := none }
          else p }

/-- The pages a run over `M` document pages actually processes: all page
numbers except those checkpointed OCR-complete in the loaded state. -/
def runToProcess (s : PipeState) (M : Nat) : List Nat :=
  (List.range' 1 M).filter fun k => !((completedNums s.pages).contains k)

theorem chunksGo_length_le {α : Type} (B fuel : Nat) (l : List α) :
    ∀ c ∈ chunksGo B fuel l, c.length ≤ B := by
  induction fuel generalizing l with
  | zero => intro c hc; exact absurd hc (by simp [chunksGo])
  | succ n ih =>
    intro c hc
    cases l with
    | nil => exact absurd hc (by simp [chunksGo])
    | cons a t =>
      rcases List.mem_cons.mp hc with h | h
      · subst h
        simp
      · exact ih _ c h

theorem chunksGo_join {α : Type} (B : Nat) (hB : 0 < B) :
    ∀ (fuel : Nat) (l : List α), l.length ≤ fuel →
      (chunksGo B fuel l).flatMap id = l := by
  intro fuel
  induction fuel with
  | zero =>
    intro l hl
    rw [List.length_eq_zero.mp (Nat.le_zero.mp hl)]
    rfl
  | succ n ih =>
    intro l hl
    cases l with
    | nil => rfl
    | cons a t =>
      have hlen : ((a :: t).drop B).length ≤ n := by
        rw [List.length_drop]
        simp only [List.length_cons] at hl ⊢
        omega
      rw [chunksGo, List.flatMap_cons, id_eq, ih ((a :: t).drop B) hlen,
        List.take_append_drop]

theorem chunksOf_join {α : Type} (B : Nat) (hB : 0 < B) (l : List α) :
    (chunksOf B l).flatMap id = l :=
  chunksGo_join B hB l.length l le_rfl

theorem foldBatches_spec (res : Nat → PageResult) (completed : List Nat)
    (bs : List (List Nat)) :
    ∀ (s : PipeState) (rc : Nat),
      ∃ e : Nat,
        bs.foldl (processBatchStep res completed) (s, rc)
          = ({ s with
               processedPages := s.processedPages
                 + ((bs.flatMap id).filter fun k => !(completed.contains k)).length
               questionPages := s.questionPages
                 + (((bs.flatMap id).filter fun k => !(completed.contains k)).filter
                     fun k => (res k).isQuestionPage).length
               skippedPages := s.skippedPages
                 + (((bs.flatMap id).filter fun k => !(completed.contains k)).filter
                     fun k => !(res k).isQuestionPage).length
               extractedQuestions := e
               pages := s.pages
                 ++ (((bs.flatMap id).filter fun k => !(completed.contains k)).map
                     fun k => mkPageRec k (res k))
               questions := s.questions
                 ++ (((bs.flatMap id).filter fun k => !(completed.contains k)).flatMap
                     fun k => mkPipeQuestions k (res k)) },
             rc + (((bs.flatMap id).filter fun k => !(completed.contains k)).flatMap
                     fun k => mkPipeQuestions k (res k)).length) := by
  induction bs with
  | nil =>
    intro s rc
    refine ⟨s.extractedQuestions, ?_⟩
    cases s
    simp
  | cons b bs ih =>
    intro s rc
    obtain ⟨st, tp, pp, qp, sp, eq0, ac, rt, pg, qs⟩ := s
    rw [List.foldl_cons]
    by_cases ht : (b.filter fun k => !(completed.contains k)).isEmpty
    · have hnil : b.filter (fun k => !(completed.contains k)) = [] :=
        List.isEmpty_iff.mp ht
      have hstep : processBatchStep res completed (⟨st, tp, pp, qp, sp, eq0, ac, rt, pg, qs⟩, rc) b
          = (⟨st, tp, pp, qp, sp, eq0, ac, rt, pg, qs⟩, rc) := by
        unfold processBatchStep
        rw [if_pos ht]
      rw [hstep]
      obtain ⟨e, he⟩ := ih _ rc
      refine ⟨e, ?_⟩
      rw [he]
      simp only [List.flatMap_cons, id_eq, List.filter_append, hnil, List.nil_append]
    · have hstep : processBatchStep res completed (⟨st, tp, pp, qp, sp, eq0, ac, rt, pg, qs⟩, rc) b
        = (⟨st, tp,
            pp + (b.filter fun k => !(completed.contains k)).length,
            qp + ((b.filter fun k => !(completed.contains k)).filter
                   fun k => (res k).isQuestionPage).length,
            sp + ((b.filter fun k => !(completed.contains k)).filter
                   fun k => !(res k).isQuestionPage).length,
            rc + ((b.filter fun k => !(completed.contains k)).flatMap
                   fun k => mkPipeQuestions k (res k)).length,
            ac, rt,
            pg ++ ((b.filter fun k => !(completed.contains k)).map
                   fun k => mkPageRec k (res k)),
            qs ++ ((b.filter fun k => !(completed.contains k)).flatMap
                   fun k => mkPipeQuestions k (res k))⟩,
           rc + ((b.filter fun k => !(completed.contains k)).flatMap
               fun k => mkPipeQuestions k (res k)).length) := by
        unfold processBatchStep
        rw [if_neg ht]
      rw [hstep]
      obtain ⟨e, he⟩ := ih _ _
      refine ⟨e, ?_⟩
      rw [he]
      simp only [List.flatMap_cons, id_eq, List.filter_append, List.map_append,
        List.flatMap_append, List.length_append, List.append_assoc, Nat.add_assoc]

/-- Closed form of a full successful orchestrator run: it processes exactly
the pages of `1..M` not checkpointed complete, appends their rows, adds their
counts to the job counters, and sets the final status and cost fields.  The
`actualCostCents` field is the cost sum over the entry snapshot of the page
collection (see the module comment above on `expire_on_commit=False`). -/
theorem processPdfJob_spec (s : PipeState) (M : Nat) (res : Nat → PageResult) :
    processPdfJob s M res
      = { s with
          status := OCRJobStatus.review
          totalPages := M
          processedPages := s.processedPages + (runToProcess s M).length
          questionPages := s.questionPages
            + ((runToProcess s M).filter fun k => (res k).isQuestionPage).length
          skippedPages := s.skippedPages
            + ((runToProcess s M).filter fun k => !(res k).isQuestionPage).length
          extractedQuestions :=
            ((runToProcess s M).flatMap fun k => mkPipeQuestions k (res k)).length
          actualCostCents := pageCostSum s.pages
          pages := s.pages ++ ((runToProcess s M).map fun k => mkPageRec k (res k))
          questions := s.questions
            ++ ((runToProcess s M).flatMap fun k => mkPipeQuestions k (res k)) } := by
  obtain ⟨st, tp, pp, qp, sp, eq0, ac, rt, pg, qs⟩ := s
  obtain ⟨e, he⟩ := foldBatches_spec res (completedNums pg)
    (chunksOf ocrBatchSize (List.range' 1 M))
    ⟨OCRJobStatus.processing, M, pp, qp, sp, eq0, ac, rt, pg, qs⟩ 0
  have hjoin : (chunksOf ocrBatchSize (List.range' 1 M)).flatMap id = List.range' 1 M :=
    chunksOf_join ocrBatchSize (by norm_num [ocrBatchSize]) _
  rw [hjoin] at he
  unfold processPdfJob
  simp only
  rw [he]
  simp only [runToProcess, Nat.zero_add]

/-- Counting helper: removing from a duplicate-free list the members of a
duplicate-free sublist-of-members leaves `length - length` elements. -/
theorem length_filter_not_contains (l C : List Nat) (hl : l.Nodup) (hC : C.Nodup)
    (hsub : ∀ c ∈ C, c ∈ l) :
    (l.filter fun k => !(C.contains k)).length = l.length - C.length := by
  have hpart : (l.filter fun k => C.contains k).length
      + (l.filter fun k => !(C.contains k)).length = l.length :=
    (List.length_eq_length_filter_add _).symm
  have hin : (l.filter fun k => C.contains k).length = C.length := by
    apply nodup_mutual_subset_length
    · exact hl.sublist (List.filter_sublist l)
    · exact hC
    · intro a ha
      exact List.elem_iff.mp ((List.mem_filter.mp ha).2)
    · intro c hc
      exact List.mem_filter.mpr ⟨hsub c hc, List.elem_iff.mpr hc⟩
  omega

/-- C6: a (re)run over `M` document pages in which `N` page rows are
checkpointed OCR-complete (page numbers distinct, completed ones in range)
reprocesses exactly the `M − N` unfinished pages: every page whose completion
flag is set is excluded from the work list before any rendering, the run
appends page rows only for work-list pages, and every extracted-question row
the run creates comes from a work-list page — so no duplicate extraction is
produced for already-completed pages. -/
theorem resume_reprocesses_only_unfinished_pages
    (s : PipeState) (M : Nat) (res : Nat → PageResult)
    (hnodup : (s.pages.map PageRec.pageNumber).Nodup)
    (hrange : ∀ p ∈ s.pages, p.ocrCompleted = true → p.pageNumber ∈ List.range' 1 M) :
    (runToProcess s M).length = M - (s.pages.filter fun p => p.ocrCompleted).length
    ∧ (∀ p ∈ s.pages, p.ocrCompleted = true → p.pageNumber ∉ runToProcess s M)
    ∧ (processPdfJob s M res).pages
        = s.pages ++ ((runToProcess s M).map fun k => mkPageRec k (res k))
    ∧ (∀ q ∈ (processPdfJob s M res).questions.drop s.questions.length,
        q.sourcePageNumber ∈ runToProcess s M) := by
  have hCnodup : (completedNums s.pages).Nodup := by
    unfold completedNums
    exact hnodup.sublist ((List.filter_sublist _).map _)
  have hCsub : ∀ c ∈ completedNums s.pages, c ∈ List.range' 1 M := by
    intro c hc
    obtain ⟨p, hp, hpc⟩ := List.mem_map.mp hc
    have hm := List.mem_filter.mp hp
    exact hpc ▸ hrange p hm.1 hm.2
  refine ⟨?_, ?_, ?_, ?_⟩
  · unfold runToProcess
    rw [length_filter_not_contains _ _ (List.nodup_range' 1 M) hCnodup hCsub]
    unfold completedNums
    rw [List.length_map]
    congr 1
    simp
  · intro p hp hc hmem
    have hnc := (List.mem_filter.mp hmem).2
    have hmemC : p.pageNumber ∈ completedNums s.pages :=
      List.mem_map.mpr ⟨p, List.mem_filter.mpr ⟨hp, hc⟩, rfl⟩
    have hct : (completedNums s.pages).contains p.pageNumber = true :=
      List.elem_iff.mpr hmemC
    rw [hct] at hnc
    exact absurd hnc (by simp)
  · rw [processPdfJob_spec]
  · rw [processPdfJob_spec]
    simp only [List.drop_left]
    intro q hq
    obtain ⟨k, hk, hqk⟩ := List.mem_flatMap.mp hq
    obtain ⟨i, _, hqi⟩ := List.mem_map.mp hqk
    rw [← hqi]
    exact hk

/-- Concrete job for the C6 witness: a 3-page document with page 2 already
checkpointed OCR-complete. -/
def c6Job : PipeState :=
  { status := OCRJobStatus.processing
    totalPages := 3
    processedPages := 1
    questionPages := 1
    skippedPages := 0
    extractedQuestions := 1
    actualCostCents := 0
    retryCount := 0
    pages := [{ pageNumber := 2, ocrMarkdown := "done already", isQuestionPage := true,
                ocrCompleted := true, structuringCompleted := true,
                ocrCostCents := 1, structuringCostCents := 1, errorMessage := none }]
    questions := [{ sourcePageNumber := 2, indexOnPage := 0 }] }

/-- Fixed per-page outcome used by the concrete pipeline runs. -/
def flatRes : Nat → PageResult := fun _ =>
  { ocrMarkdown := "some page text", isQuestionPage := true,
    ocrCostCents := 0, structuringCostCents := 0, errorMessage := none,
    questionCount := 1 }

/-- Witness for `resume_reprocesses_only_unfinished_pages`: resuming the
3-page job with page 2 checkpointed reprocesses 3 − 1 = 2 pages, and those
pages are exactly 1 and 3. -/
theorem resume_reprocesses_only_unfinished_pages_witness :
    (c6Job.pages.map PageRec.pageNumber).Nodup
    ∧ (runToProcess c6Job 3).length
        = 3 - (c6Job.pages.filter fun p => p.ocrCompleted).length
    ∧ runToProcess c6Job 3 = [1, 3] := by
  have h := resume_reprocesses_only_unfinished_pages c6Job 3 flatRes
    (by decide) (by decide)
  exact ⟨by decide, h.1, by decide⟩

/-! ### C3: `processedPages` versus `totalPages` across retry

`_retry_failed_pages_async` clears the completion flags of the retried pages
(lines 684-691) but leaves `job.processed_pages` (and the other counters) at
their old values, and the re-run of `_process_pdf_job_async` it triggers then
increments `processed_pages` once more for every retried page (line 247) and
inserts a fresh `OCRJobPage` row for it (lines 193-207, which always construct
a new row despite the `Create or update` comment).  Every page the main loop
touches was already counted: it sets `ocr_completed=True` and bumps
`processed_pages` even for pages whose provider call errored.  The scenario is
reachable through both error-recovery endpoints: `/retry-failed` selects pages
with an error recorded (which are counted and `ocr_completed=True`), and
`/reextract-page` explicitly clears the flags of a successfully processed page
before dispatching `retry_failed_pages(job_id, [page_number])`.  A fully
processed 1-page job whose page is re-extracted therefore ends with
`processed_pages = 2 > total_pages = 1` and two page rows for page 1. -/

/-- A fully processed one-page job, as left by a successful first run. -/
def c3Job : PipeState :=
  { status := OCRJobStatus.review
    totalPages := 1
    processedPages := 1
    questionPages := 1
    skippedPages := 0
    extractedQuestions := 1
    actualCostCents := 0
    retryCount := 0
    pages := [{ pageNumber := 1, ocrMarkdown := "first pass text", isQuestionPage := true,
                ocrCompleted := true, structuringCompleted := true,
                ocrCostCents := 0, structuringCostCents := 0, errorMessage := none }]
    questions := [{ sourcePageNumber := 1, indexOnPage := 0 }] }

/-- The job after an operator retries page 1 and the queued re-run completes. -/
def c3Rerun : PipeState := processPdfJob (retryFailedPages c3Job (some [1])) 1 flatRes

/-- Supporting fact (the true monotone half of the invariant): a run only ever
increments `processed_pages`. -/
theorem processed_pages_monotone (s : PipeState) (M : Nat) (res : Nat → PageResult) :
    s.processedPages ≤ (processPdfJob s M res).processedPages := by
  rw [processPdfJob_spec]
  exact Nat.le_add_right _ _

/-- Supporting fact: the retry task itself does not change `processed_pages`
(the counter is neither decremented for the pages whose flags it clears nor
otherwise adjusted). -/
theorem retry_keeps_processed_pages (s : PipeState) (ns : Option (List Nat)) :
    (retryFailedPages s ns).processedPages = s.processedPages := by
  unfold retryFailedPages
  by_cases h : (s.pages.filter (retryPred ns)).isEmpty
  · rw [if_pos h]
  · rw [if_neg h]

/-- Supporting fact: on a consistent state — `processed_pages` equals the
number of OCR-complete page rows, page numbers distinct and completed pages in
range, as initial runs and crash-resumes maintain — a run ends with
`processed_pages = total_pages` exactly, so the claimed bound holds there.
Only the flag-clearing retry path breaks the consistency premise. -/
theorem processed_pages_equals_total_on_consistent_state
    (s : PipeState) (M : Nat) (res : Nat → PageResult)
    (hnodup : (s.pages.map PageRec.pageNumber).Nodup)
    (hrange : ∀ p ∈ s.pages, p.ocrCompleted = true → p.pageNumber ∈ List.range' 1 M)
    (hcons : s.processedPages = (s.pages.filter fun p => p.ocrCompleted).length) :
    (processPdfJob s M res).processedPages = M
      ∧ (processPdfJob s M res).processedPages ≤ (processPdfJob s M res).totalPages := by
  have hCnodup : (completedNums s.pages).Nodup := by
    unfold completedNums
    exact hnodup.sublist ((List.filter_sublist _).map _)
  have hCsub : ∀ c ∈ completedNums s.pages, c ∈ List.range' 1 M := by
    intro c hc
    obtain ⟨p, hp, hpc⟩ := List.mem_map.mp hc
    have hm := List.mem_filter.mp hp
    exact hpc ▸ hrange p hm.1 hm.2
  have hNle : (completedNums s.pages).length ≤ M := by
    have := (hCnodup.subperm hCsub).length_le
    simpa using this
  have hlen : (runToProcess s M).length = M - (completedNums s.pages).length := by
    unfold runToProcess
    rw [length_filter_not_contains _ _ (List.nodup_range' 1 M) hCnodup hCsub]
    congr 1
    simp
  have hN : (completedNums s.pages).length = (s.pages.filter fun p => p.ocrCompleted).length := by
    unfold completedNums
    rw [List.length_map]
  have hpp : (processPdfJob s M res).processedPages = M := by
    rw [processPdfJob_spec]
    show s.processedPages + (runToProcess s M).length = M
    rw [hlen, hcons, ← hN]
    omega
  refine ⟨hpp, ?_⟩
  rw [hpp, processPdfJob_spec]

/-- C3 (failing case): the claimed invariant `processedPages ≤ totalPages` is
violated by the retry path.  Before the retry the fully processed job has
`processedPages = totalPages = 1`; retrying page 1 clears its completion flags
without decrementing the counter, so the re-run counts the page again:
`processedPages = 2 > totalPages = 1`, and a duplicate page row for page 1 is
inserted.  (`processedPages` itself never decreases — the monotonicity half of
the claim — but the upper bound fails.) -/
theorem processed_pages_exceed_total_after_retry :
    c3Job.processedPages = 1 ∧ c3Job.totalPages = 1
    ∧ c3Rerun.processedPages = 2 ∧ c3Rerun.totalPages = 1
    ∧ c3Rerun.pages.map PageRec.pageNumber = [1, 1] := by
  refine ⟨rfl, rfl, ?_, ?_, ?_⟩ <;> decide

/-! ### C4: `actualCostCents` versus the persisted page costs -/

/-- Per-page outcome with nonzero provider costs: 3 cents of OCR and 2 cents
of structuring per page. -/
def costRes : Nat → PageResult := fun _ =>
  { ocrMarkdown := "a question page", isQuestionPage := true,
    ocrCostCents := 3, structuringCostCents := 2, errorMessage := none,
    questionCount := 1 }

/-- A freshly created job: no page rows yet. -/
def c4Fresh : PipeState :=
  { status := OCRJobStatus.pending
    totalPages := 0
    processedPages := 0
    questionPages := 0
    skippedPages := 0
    extractedQuestions := 0
    actualCostCents := 0
    retryCount := 0
    pages := []
    questions := [] }

/-- The fresh one-page job after the orchestrator runs it to completion. -/
def c4Done : PipeState := processPdfJob c4Fresh 1 costRes

/-- C4 (failing case): the run reaches REVIEW with a persisted page whose
costs sum to 5 cents, yet `actual_cost_cents` is 0, because line 280 of
ocr_tasks.py sums over the `job.pages` relationship collection cached when the
job row was loaded (`expire_on_commit=False`, rows added by FK only), which
for a fresh job is empty — not over the page rows the run just persisted. -/
theorem actual_cost_misses_pages_created_by_run :
    c4Done.status = OCRJobStatus.review
    ∧ c4Done.pages.map (fun p => p.ocrCostCents + p.structuringCostCents) = [5]
    ∧ pageCostSum c4Done.pages = 5
    ∧ c4Done.actualCostCents = 0 := by
  refine ⟨?_, ?_, ?_, ?_⟩ <;> decide

/-! ### C5: persistence granularity of the main loop

The timeline of one orchestrator run, as a sequence of events.  Within one
batch iteration (ocr_tasks.py lines 126-267) *all* remaining pages of the
batch are first processed by `await ocr_client.process_page_batch(...)` (line
181) and only then written and committed in a single `await db.commit()` at
the end of the iteration (line 255) — the per-page `db.flush()` at line 208
sends rows inside the still-open transaction and is not durable.  A page's
work therefore becomes durable only at its batch's commit. -/

/-- One observable event of a run: the completion of one page's external
processing, or a transaction commit making everything so far durable. -/
inductive RunEvent where
  | pageDone (page : Nat)
  | commitPoint
deriving DecidableEq

/-- The events of one batch iteration: the batch's remaining pages are
processed, then one commit persists them; a batch with nothing left is
skipped entirely (`continue`, line 161), with no commit. -/
def batchEvents (completed : List Nat) (b : List Nat) : List RunEvent :=
  let t := b.filter fun k => !(completed.contains k)
  if t.isEmpty then [] else (t.map RunEvent.pageDone) ++ [RunEvent.commitPoint]

/-- The run as a list of event blocks: the status-update commit (line 99), the
`total_pages` commit (line 114), one block per batch, and the final commit
(line 283). -/
def runBlocks (s : PipeState) (M : Nat) : List (List RunEvent) :=
  [RunEvent.commitPoint] :: [RunEvent.commitPoint]
    :: ((chunksOf ocrBatchSize (List.range' 1 M)).map
          (batchEvents (completedNums s.pages))
        ++ [[RunEvent.commitPoint]])

/-- The flat event timeline of one run. -/
def runEvents (s : PipeState) (M : Nat) : List RunEvent :=
  (runBlocks s M).flatMap id

/-- Pages processed since the last commit, after executing a prefix of
events: the processing work that would be lost were the task interrupted at
that point.  `pendingGo p tr` runs the events of `tr` starting from `p`
unpersisted pages. -/
def pendingGo : Nat → List RunEvent → Nat
  | p, [] => p
  | p, RunEvent.pageDone _ :: r => pendingGo (p + 1) r
  | _, RunEvent.commitPoint :: r => pendingGo 0 r

/-- Unpersisted processed pages after a prefix of the run. -/
def pendingAfter (tr : List RunEvent) : Nat := pendingGo 0 tr

/-- Number of page-processing events in an event list. -/
def pageDoneCount (tr : List RunEvent) : Nat :=
  tr.countP fun e =>
    match e with
    | RunEvent.pageDone _ => true
    | RunEvent.commitPoint => false

theorem pendingGo_append (a b : List RunEvent) (p : Nat) :
    pendingGo p (a ++ b) = pendingGo (pendingGo p a) b := by
  induction a generalizing p with
  | nil => rfl
  | cons e t ih =>
    cases e with
    | pageDone k => rw [List.cons_append, pendingGo, pendingGo, ih]
    | commitPoint => rw [List.cons_append, pendingGo, pendingGo, ih]

theorem pendingGo_le (tr : List RunEvent) : ∀ p : Nat,
    pendingGo p tr ≤ p + pageDoneCount tr := by
  induction tr with
  | nil => intro p; simp [pendingGo, pageDoneCount]
  | cons e t ih =>
    intro p
    cases e with
    | pageDone k =>
      rw [pendingGo]
      have := ih (p + 1)
      simp [pageDoneCount, List.countP_cons] at *
      omega
    | commitPoint =>
      rw [pendingGo]
      have := ih 0
      simp [pageDoneCount, List.countP_cons] at *
      omega

theorem pageDoneCount_prefix_le (a b : List RunEvent) :
    pageDoneCount a ≤ pageDoneCount (a ++ b) := by
  simp only [pageDoneCount, List.countP_append]
  omega

theorem pendingGo_trailing_zero (l : List RunEvent) (p : Nat) :
    pendingGo p (l ++ [RunEvent.commitPoint]) = 0 := by
  rw [pendingGo_append]
  rfl

theorem pageDoneCount_map_pageDone (t : List Nat) :
    pageDoneCount (t.map RunEvent.pageDone) = t.length := by
  induction t with
  | nil => rfl
  | cons a l ih =>
    simp [List.map_cons, pageDoneCount, List.countP_cons] at *

theorem pageDoneCount_batch (t : List Nat) :
    pageDoneCount (t.map RunEvent.pageDone ++ [RunEvent.commitPoint]) = t.length := by
  unfold pageDoneCount
  rw [List.countP_append]
  have h1 := pageDoneCount_map_pageDone t
  unfold pageDoneCount at h1
  rw [h1]
  rfl

/-- In a run partitioned into blocks each holding at most `B` page events and
each leaving nothing pending (it is empty or ends in a commit), every prefix
of the flattened run has at most `B` unpersisted processed pages. -/
theorem pending_prefix_bound (B : Nat) (blocks : List (List RunEvent))
    (hb : ∀ b ∈ blocks, pageDoneCount b ≤ B ∧ pendingGo 0 b = 0) :
    ∀ t1 t2 : List RunEvent, t1 ++ t2 = blocks.flatMap id → pendingAfter t1 ≤ B := by
  induction blocks with
  | nil =>
    intro t1 t2 ht
    simp only [List.flatMap_nil] at ht
    obtain ⟨h1, _⟩ := List.append_eq_nil.mp ht
    subst h1
    exact Nat.zero_le B
  | cons b bs ih =>
    intro t1 t2 ht
    rw [List.flatMap_cons, id_eq] at ht
    rcases List.append_eq_append_iff.mp ht with ⟨u, hu1, hu2⟩ | ⟨u, hu1, hu2⟩
    · -- t1 is a prefix of the head block b: b = t1 ++ u
      have hcount : pageDoneCount t1 ≤ B := by
        have h1 := pageDoneCount_prefix_le t1 u
        rw [← hu1] at h1
        exact h1.trans (hb b (List.mem_cons_self b bs)).1
      exact (pendingGo_le t1 0).trans (by omega)
    · -- t1 runs past the head block: t1 = b ++ u
      subst hu1
      unfold pendingAfter
      rw [pendingGo_append, (hb b (List.mem_cons_self b bs)).2]
      exact ih (fun x hx => hb x (List.mem_cons_of_mem b hx)) u t2 hu2.symm

theorem chunksOf_length_le {α : Type} (B : Nat) (l : List α) :
    ∀ c ∈ chunksOf B l, c.length ≤ B :=
  chunksGo_length_le B l.length l

/-- Every block of a run is within the batch bound and ends persisted. -/
theorem runBlocks_ok (s : PipeState) (M : Nat) :
    ∀ b ∈ runBlocks s M, pageDoneCount b ≤ ocrBatchSize ∧ pendingGo 0 b = 0 := by
  intro b hb
  unfold runBlocks at hb
  rcases List.mem_cons.mp hb with h | hb1
  · subst h; exact ⟨by decide, rfl⟩
  rcases List.mem_cons.mp hb1 with h | hb2
  · subst h; exact ⟨by decide, rfl⟩
  rcases List.mem_append.mp hb2 with hmap | hlast
  · obtain ⟨c, hc, hbc⟩ := List.mem_map.mp hmap
    subst hbc
    unfold batchEvents
    by_cases hempty : (c.filter fun k => !((completedNums s.pages).contains k)).isEmpty
    · rw [if_pos hempty]
      exact ⟨by decide, rfl⟩
    · rw [if_neg hempty]
      constructor
      · rw [pageDoneCount_batch]
        have h1 := List.length_filter_le (fun k => !((completedNums s.pages).contains k)) c
        have h2 := chunksOf_length_le ocrBatchSize (List.range' 1 M) c hc
        omega
      · exact pendingGo_trailing_zero _ 0
  · rw [List.mem_singleton.mp hlast]
    exact ⟨by decide, rfl⟩

/-- C5 (amended): the persistence granularity of the main loop is the batch,
not the page.  For every prefix of a run's event timeline — every possible
interruption point — the number of processed-but-unpersisted pages is at most
`ocr_batch_size` (10): an interruption loses at most one batch's partial
work. -/
theorem interruption_loses_at_most_one_batch
    (s : PipeState) (M : Nat) (t1 t2 : List RunEvent)
    (h : t1 ++ t2 = runEvents s M) :
    pendingAfter t1 ≤ ocrBatchSize :=
  pending_prefix_bound ocrBatchSize (runBlocks s M) (runBlocks_ok s M) t1 t2 h

/-- A freshly created 3-page job: no page rows yet. -/
def c5Fresh : PipeState :=
  { status := OCRJobStatus.pending
    totalPages := 3
    processedPages := 0
    questionPages := 0
    skippedPages := 0
    extractedQuestions := 0
    actualCostCents := 0
    retryCount := 0
    pages := []
    questions := [] }

/-- C5 (counterexample to the claim as stated): on a fresh 3-page job the
whole document is one batch, so the timeline commits only after all three
pages: at the interruption point where pages 1 and 2 have been fully
processed, two pages of completed work are unpersisted.  Page 1's record was
not persisted after page 1 was processed, so an interruption there loses two
pages' work, not at most one page's partial work. -/
theorem per_page_persistence_counterexample :
    [RunEvent.commitPoint, RunEvent.commitPoint,
        RunEvent.pageDone 1, RunEvent.pageDone 2]
      ++ [RunEvent.pageDone 3, RunEvent.commitPoint, RunEvent.commitPoint]
      = runEvents c5Fresh 3
    ∧ pendingAfter [RunEvent.commitPoint, RunEvent.commitPoint,
        RunEvent.pageDone 1, RunEvent.pageDone 2] = 2 := by
  refine ⟨?_, ?_⟩ <;> decide

/-- Witness for `interruption_loses_at_most_one_batch` at the concrete 3-page
run, at the interruption point after two pages. -/
theorem interruption_loses_at_most_one_batch_witness :
    ([RunEvent.commitPoint, RunEvent.commitPoint,
        RunEvent.pageDone 1, RunEvent.pageDone 2]
      ++ [RunEvent.pageDone 3, RunEvent.commitPoint, RunEvent.commitPoint]
      = runEvents c5Fresh 3)
    ∧ pendingAfter [RunEvent.commitPoint, RunEvent.commitPoint,
        RunEvent.pageDone 1, RunEvent.pageDone 2] ≤ ocrBatchSize :=
  ⟨by decide,
    interruption_loses_at_most_one_batch c5Fresh 3
      [RunEvent.commitPoint, RunEvent.commitPoint,
        RunEvent.pageDone 1, RunEvent.pageDone 2]
      [RunEvent.pageDone 3, RunEvent.commitPoint, RunEvent.commitPoint]
      (by decide)⟩

/-! ## Bulk review (api/v1/endpoints/ocr.py, `bulk_review_questions`) -/

/-- A row of `extracted_questions` as seen by bulk review. -/
structure ReviewQ where
  id : Nat
  jobId : Nat
  reviewStatus : QuestionReviewStatus
  reviewedById : Option Nat
  reviewedAt : Option Nat
deriving DecidableEq

/-- A row of `ocr_jobs` as seen by bulk review (owner check only). -/
structure ReviewJob where
  id : Nat
  userId : Nat
deriving DecidableEq

/-- The tables touched by bulk review. -/
structure ReviewDB where
  jobs : List ReviewJob
  questions : List ReviewQ
deriving DecidableEq

/-- The ownership join of the verification query (ocr.py lines 882-887):
the question's job exists and belongs to the caller. -/
def ownedBy (db : ReviewDB) (userId : Nat) (q : ReviewQ) : Bool :=
  db.jobs.any fun j => j.id == q.jobId && j.userId == userId

/-- Embedding of `POST /questions/bulk-review` (ocr.py lines 866-908): reject
any action other than `approve`/`reject` with 400; select the rows whose id is
in `question_ids` and whose job belongs to the caller; reject with 404 when
the row count differs from `len(question_ids)`; otherwise one UPDATE sets
`review_status`, `reviewed_by_id` and `reviewed_at` on every row whose id is
in `question_ids`, and the payload reports `len(question_ids)` rows updated.
`now` stands for `datetime.now(UTC)`.  An error return models the raised
HTTPException: the transaction is never committed, so no row changes. -/
def bulk_review_questions (db : ReviewDB) (userId : Nat) (action : String)
    (questionIds : List Nat) (now : Nat) : Except Nat (Nat × ReviewDB) :=
  if action = "approve" ∨ action = "reject" then
    let newStatus :=
      if action = "approve" then QuestionReviewStatus.approved
      else QuestionReviewStatus.rejected
    let selected := db.questions.filter fun q =>
      questionIds.contains q.id && ownedBy db userId q
    if selected.length = questionIds.length then
      Except.ok (questionIds.length,
        { db with
            questions := db.questions.map fun q =>
              if questionIds.contains q.id then
                { q with reviewStatus := newStatus,
                         reviewedById := some userId,
                         reviewedAt := some now }
              else q })
    else Except.error 404
  else Except.error 400

/-- C10 (amended): bulk review is all-or-nothing.  An action other than
approve/reject fails with 400 and changes nothing.  When the requested ids are
distinct, the question-row ids are distinct (primary keys), and every
requested id names a question whose job the caller owns, the call succeeds and
updates exactly the listed questions, recording the reviewer and timestamp;
on any failure the transaction is never committed, so no row changes (error
returns carry no state). -/
theorem bulk_review_all_or_nothing
    (db : ReviewDB) (userId : Nat) (action : String) (questionIds : List Nat)
    (now : Nat)
    (hids : questionIds.Nodup)
    (hqids : (db.questions.map ReviewQ.id).Nodup)
    (hown : ∀ i ∈ questionIds, ∃ q ∈ db.questions, q.id = i ∧ ownedBy db userId q = true) :
    (∀ badAction : String, badAction ≠ "approve" → badAction ≠ "reject" →
      bulk_review_questions db userId badAction questionIds now = Except.error 400)
    ∧ ((action = "approve" ∨ action = "reject") →
        bulk_review_questions db userId action questionIds now
          = Except.ok (questionIds.length,
              { db with
                  questions := db.questions.map fun q =>
                    if questionIds.contains q.id then
                      { q with
                          reviewStatus :=
                            if action = "approve" then QuestionReviewStatus.approved
                            else QuestionReviewStatus.rejected,
                          reviewedById := some userId,
                          reviewedAt := some now }
                    else q })) := by
  constructor
  · intro badAction h1 h2
    unfold bulk_review_questions
    rw [if_neg]
    rintro (h | h)
    · exact h1 h
    · exact h2 h
  · intro hact
    unfold bulk_review_questions
    rw [if_pos hact, if_pos]
    have hsel : ((db.questions.filter fun q =>
        questionIds.contains q.id && ownedBy db userId q).map ReviewQ.id).Nodup :=
      hqids.sublist ((List.filter_sublist _).map _)
    rw [← List.length_map _ ReviewQ.id]
    apply nodup_mutual_subset_length _ _ hsel hids
    · intro i hi
      obtain ⟨q, hq, hqi⟩ := List.mem_map.mp hi
      have hf := List.mem_filter.mp hq
      have hf2 : questionIds.contains q.id = true ∧ ownedBy db userId q = true := by
        simpa using hf.2
      rw [← hqi]
      exact List.elem_iff.mp hf2.1
    · intro i hi
      obtain ⟨q, hq, hqi, hqo⟩ := hown i hi
      refine List.mem_map.mpr ⟨q, ?_, hqi⟩
      refine List.mem_filter.mpr ⟨hq, ?_⟩
      rw [Bool.and_eq_true]
      exact ⟨hqi ▸ List.elem_iff.mpr hi, hqo⟩

/-- Concrete database for C10: one job (id 1) owned by user 7 and one pending
question (id 5) in that job. -/
def c10db : ReviewDB :=
  { jobs := [⟨1, 7⟩]
    questions := [⟨5, 1, QuestionReviewStatus.pending, none, none⟩] }

/-- C10 (counterexample to the claim as stated): the request
`action = "approve", question_ids = [5, 5]` names only question 5, which does
belong to a job owned by the caller, yet the call fails with 404 instead of
updating it: the selection returns the one matching row while
`len(question_ids)` counts the duplicate, so the length check
`len(questions) != len(data.question_ids)` fires.  The claim's
"otherwise every listed question is updated" branch therefore needs the ids
to be distinct. -/
theorem bulk_review_duplicate_ids_counterexample :
    (∀ i ∈ [5, 5], ∃ q ∈ c10db.questions, q.id = i ∧ ownedBy c10db 7 q = true)
    ∧ bulk_review_questions c10db 7 "approve" [5, 5] 99 = Except.error 404 := by
  refine ⟨?_, ?_⟩
  · intro i hi
    refine ⟨⟨5, 1, QuestionReviewStatus.pending, none, none⟩, by decide, ?_, by decide⟩
    have : i = 5 := by
      rcases List.mem_cons.mp hi with h | h
      · exact h
      · simpa using h
    simp [this]
  · rfl

/-- Witness for `bulk_review_all_or_nothing`: on the concrete database,
approving the distinct list `[5]` succeeds and sets status, reviewer and
timestamp, while action `"publish"` is rejected with 400. -/
theorem bulk_review_all_or_nothing_witness :
    ([5] : List Nat).Nodup
    ∧ bulk_review_questions c10db 7 "publish" [5] 99 = Except.error 400
    ∧ bulk_review_questions c10db 7 "approve" [5] 99
        = Except.ok (1,
            { c10db with
                questions := [⟨5, 1, QuestionReviewStatus.approved, some 7, some 99⟩] }) := by
  have h := bulk_review_all_or_nothing c10db 7 "approve" [5] 99
    (by decide) (by decide)
    (fun i hi => ⟨⟨5, 1, QuestionReviewStatus.pending, none, none⟩, by decide,
      by simpa using (List.mem_singleton.mp hi).symm, by decide⟩)
  refine ⟨by decide, ?_, ?_⟩
  · exact h.1 "publish" (by decide) (by decide)
  · rw [h.2 (Or.inl rfl)]
    rfl

/-! ## Page Classifier (services/ocr_service.py, `OCRClient._is_question_page`)

The classifier lowercases the OCR markdown and evaluates a fixed set of
`re.search` patterns over it.  Each pattern is embedded as an executable
matcher over the lowercased character list, with Python regex semantics:
`re.search` succeeds iff the pattern matches at some position; `\s` is
whitespace, `\w` a word character, `\b` a word boundary, `.` any character
except newline; `^` anchors at the string start and `$` matches at the end or
just before a trailing newline (no MULTILINE flag is passed).  Where a greedy
quantifier is followed by a literal that cannot extend it (e.g. `\s+` before
`for`), greedy consumption is the only possible match, so the matchers
consume maximally without backtracking; the two genuinely backtracking
patterns (`\bif\s+.+\s*=` and `^instructions?:?\s*$`) are embedded by their
exists-a-split semantics. -/

/-- Python `\s` on the ASCII range (str.lower output of exam OCR). -/
def pyIsSpace (c : Char) : Bool :=
  c = ' ' || c = '\t' || c = '\n' || c = '\r' || c = '\x0b' || c = '\x0c'

/-- Python `\w`: letters, digits, underscore. -/
def isWordChar (c : Char) : Bool := c.isAlpha || c.isDigit || c = '_'

/-- `markdown_text.lower()` as a character list (ocr_service.py line 304). -/
def pyLower (s : String) : List Char := s.toList.map Char.toLower

/-- Python `str.strip()`: drop leading and trailing whitespace. -/
def pyStrip (l : List Char) : List Char :=
  ((l.dropWhile pyIsSpace).reverse.dropWhile pyIsSpace).reverse

/-- Consume a literal character sequence, returning the rest on success. -/
def dropLit : List Char → List Char → Option (List Char)
  | [], l => some l
  | _ :: _, [] => none
  | p :: ps, c :: cs => if c = p then dropLit ps cs else none

/-- Does the literal occur at the start? -/
def startsSeq (pat l : List Char) : Bool := (dropLit pat l).isSome

/-- Does the literal occur anywhere (substring search)? -/
def containsSeq (pat : List Char) : List Char → Bool
  | [] => startsSeq pat []
  | c :: cs => startsSeq pat (c :: cs) || containsSeq pat cs

/-- `re.search` driver for patterns with no leading word boundary: try the
matcher at every suffix. -/
def searchPlain (m : List Char → Bool) : List Char → Bool
  | [] => m []
  | c :: cs => m (c :: cs) || searchPlain m cs

/-- `re.search` driver for patterns starting with `\b` before a word
character: try the matcher at every suffix, tracking whether the previous
character is a word character (the start of the string is a boundary). -/
def searchWithPrev (m : Bool → List Char → Bool) : Bool → List Char → Bool
  | prevW, [] => m prevW []
  | prevW, c :: cs => m prevW (c :: cs) || searchWithPrev m (isWordChar c) cs

/-- `\s+` followed by a token that cannot start with whitespace: require one
whitespace character and consume the whole run. -/
def ws1 (l : List Char) : Option (List Char) :=
  match l with
  | c :: cs => if pyIsSpace c then some (cs.dropWhile pyIsSpace) else none
  | [] => none

/-- A trailing `\b` after a word character: next character is absent or
non-word. -/
def boundaryAfter (l : List Char) : Bool :=
  match l with
  | [] => true
  | c :: _ => !isWordChar c

def markLit : List Char := "mark".toList
def forLit : List Char := "for".toList
def reviewLit : List Char := "review".toList
def questionLit : List Char := "question".toList
def whatIsLit : List Char := "what is".toList
def whichOfLit : List Char := "which of".toList
def ifLit : List Char := "if".toList
def solveLit : List Char := "solve".toList
def theValueOfLit : List Char := "the value of".toList
def equationLit : List Char := "equation".toList
def graphLit : List Char := "graph".toList
def functionLit : List Char := "function".toList
def fracLit : List Char := "\\frac".toList ++ ['\x7b']
def sqrtLit : List Char := "\\sqrt".toList ++ ['\x7b']
def answerLit : List Char := "answer".toList
def keyLit : List Char := "key".toList
def advLit : List Char := "advertisement".toList
def instructionLit : List Char := "instruction".toList

/-- Pattern `mark\s+for\s+review` at one position.  (`\s+` is followed by a
letter each time, so maximal whitespace consumption is the only match.) -/
def matchMarkForReview (l : List Char) : Bool :=
  ((dropLit markLit l).bind ws1
    |>.bind (dropLit forLit)
    |>.bind ws1
    |>.map (startsSeq reviewLit)).getD false

/-- Pattern `question\s+\d+` at one position: literal, whitespace run, then at
least one digit. -/
def matchQuestionNum (l : List Char) : Bool :=
  ((dropLit questionLit l).bind ws1
    |>.map (fun r =>
      match r with
      | c :: _ => c.isDigit
      | [] => false)).getD false

def optionLetter (c : Char) : Bool := c = 'a' || c = 'b' || c = 'c' || c = 'd'

/-- Patterns `\b(a\)|b\)|c\)|d\))` and `\b(a\.|b\.|c\.|d\.)` at one position:
the previous character is not a word character, and an option letter is
followed by `d` (the closing delimiter `)` or `.`). -/
def matchOptionTok (d : Char) (prevW : Bool) (l : List Char) : Bool :=
  match l with
  | c1 :: c2 :: _ => !prevW && optionLetter c1 && c2 = d
  | _ => false

/-- Keyword pattern `\b<kw>\b` at one position (also used for the two-word
keywords, whose inner space is a literal space in the regex). -/
def matchKw (kw : List Char) (prevW : Bool) (l : List Char) : Bool :=
  !prevW && ((dropLit kw l).map boundaryAfter).getD false

/-- Can `M` be split as `\s*` ++ (nonempty run of non-newline characters) ++
`\s*`?  If stripping whitespace leaves a nonempty core, every non-whitespace
character must sit inside the `.+` block, so a split exists iff the core has
no newline; if `M` is all whitespace, the `.+` block must be a single
non-newline whitespace character, which exists iff `M` has one. -/
def matchDotsEq (M : List Char) : Bool :=
  let core := ((M.dropWhile pyIsSpace).reverse.dropWhile pyIsSpace).reverse
  if core.isEmpty then M.any fun c => c ≠ '\n'
  else core.all fun c => c ≠ '\n'

/-- Scan for a `=` whose preceding segment satisfies `matchDotsEq`; `seen`
holds the segment before the scan position, reversed. -/
def existsEqSplitGo (seen : List Char) : List Char → Bool
  | [] => false
  | c :: cs =>
    (c = '=' && matchDotsEq seen.reverse) || existsEqSplitGo (c :: seen) cs

/-- Pattern `\bif\s+.+\s*=` at one position: boundary, `if`, at least one
whitespace character, then some split `.+ \s* =` of the remainder (any extra
whitespace of `\s+` is absorbed by the leading `\s*` of `matchDotsEq`). -/
def matchIfEq (prevW : Bool) (l : List Char) : Bool :=
  !prevW &&
    (match dropLit ifLit l with
     | some (c :: cs) => pyIsSpace c && existsEqSplitGo [] cs
     | _ => false)

/-- Pattern `\$.*\$`: two dollar signs with no newline between them. -/
def searchDollarPair : List Char → Bool
  | [] => false
  | c :: cs =>
    (c = '$' && (cs.takeWhile fun x => x ≠ '\n').contains '$') || searchDollarPair cs

/-- Pattern `^answer\s*key` (anchored at the string start; `\s*` is followed
by `k`, so maximal consumption is the only match). -/
def matchAnswerKeyStart (l : List Char) : Bool :=
  ((dropLit answerLit l).map
    (fun r => startsSeq keyLit (r.dropWhile pyIsSpace))).getD false

/-- Pattern `^instructions?:?\s*$`: anchored at the start, optional `s`,
optional `:`, then whitespace to the end (Python `$` also matches just before
a trailing newline, which is itself whitespace, so the condition is that the
whole remainder is whitespace). -/
def matchInstructionsStart (l : List Char) : Bool :=
  match dropLit instructionLit l with
  | none => false
  | some r1 =>
    (r1 :: (match r1 with | 's' :: t => [t] | _ => [])).any fun r2 =>
      (r2 :: (match r2 with | ':' :: t => [t] | _ => [])).any fun r3 =>
        r3.all pyIsSpace

/-- The `non_question_patterns` loop (ocr_service.py lines 330-339):
`^answer\s*key`, `advertisement`, `^instructions?:?\s*$`. -/
def nonQuestionMatch (t : List Char) : Bool :=
  matchAnswerKeyStart t || containsSeq advLit t || matchInstructionsStart t

/-- The `question_patterns` loop (ocr_service.py lines 311-344), one matcher
per pattern in source order. -/
def questionMatch (t : List Char) : Bool :=
  searchPlain matchMarkForReview t
    || searchPlain matchQuestionNum t
    || searchWithPrev (matchOptionTok ')') false t
    || searchWithPrev (matchOptionTok '.') false t
    || searchWithPrev (matchKw whatIsLit) false t
    || searchWithPrev (matchKw whichOfLit) false t
    || searchWithPrev matchIfEq false t
    || searchWithPrev (matchKw solveLit) false t
    || searchWithPrev (matchKw theValueOfLit) false t
    || searchWithPrev (matchKw equationLit) false t
    || searchWithPrev (matchKw graphLit) false t
    || searchWithPrev (matchKw functionLit) false t
    || searchDollarPair t
    || containsSeq fracLit t
    || containsSeq sqrtLit t

/-- Embedding of `OCRClient._is_question_page` (ocr_service.py lines 299-347):
lowercase the markdown; reject when the stripped text is shorter than 50
characters; reject on any non-question pattern; accept on any question
pattern; otherwise accept iff the stripped text is longer than 150
characters. -/
def is_question_page (markdownText : String) : Bool :=
  let text := pyLower markdownText
  if (pyStrip text).length < 50 then false
  else if nonQuestionMatch text then false
  else if questionMatch text then true
  else decide ((pyStrip text).length > 150)

/-- C7 (amended): negative signals take precedence.  (a) A page whose
lowercased markdown begins with `answer key` — the "ANSWER KEY dominant
content" case — is never classified as a question page.  (b) A page whose
stripped lowercased markdown has at least 50 characters, which triggers no
negative signal, and which contains a word-boundary enumerated option token
(`a)`/`b)`/`c)`/`d)`) is classified as a question page; the claim's 150
character minimum is not what the code tests (50 stripped characters with an
option token suffice), and without the no-negative-signal condition the
classification can be false (see the counterexample). -/
theorem classifier_signal_precedence (md : String) :
    (matchAnswerKeyStart (pyLower md) = true → is_question_page md = false)
    ∧ (50 ≤ (pyStrip (pyLower md)).length →
        nonQuestionMatch (pyLower md) = false →
        searchWithPrev (matchOptionTok ')') false (pyLower md) = true →
        is_question_page md = true) := by
  constructor
  · intro h
    simp only [is_question_page]
    by_cases hlen : (pyStrip (pyLower md)).length < 50
    · rw [if_pos hlen]
    · rw [if_neg hlen,
        if_pos (show nonQuestionMatch (pyLower md) = true by
          unfold nonQuestionMatch
          rw [h]
          rfl)]
  · intro hlen hneg hopt
    simp only [is_question_page]
    rw [if_neg (by omega), if_neg (by simp [hneg]),
      if_pos (show questionMatch (pyLower md) = true by
        unfold questionMatch
        rw [hopt]
        simp)]

/-- A 162-character page that satisfies the claim's premises — enumerated
options `a) ... b) ... c) ... d)` and length at least 150 — but also contains
the negative keyword `advertisement`. -/
def c7AdPage : String :=
  "which advertisement slogan best matches the brand image today? a) the red one b) the blue banner c) the green sign d) none of these options seems to fit well here"

/-- A question page: 83 characters of stripped text with enumerated options
and no negative signal. -/
def c7QuestionPage : String :=
  "question 1: what is the value of x in this diagram? a) one b) two c) three d) four"

/-- An answer-key page: markdown whose dominant content is `ANSWER KEY`
followed by answers. -/
def c7AnswerKeyPage : String :=
  "ANSWER KEY  1. c  2. b  3. d  4. a  5. c  6. b  7. a  8. d"

set_option maxRecDepth 40000 in
/-- C7 (counterexample to the claim as stated): `c7AdPage` is at least 150
characters long and contains the enumerated option pattern with word
boundaries, yet `_is_question_page` classifies it as not a question page,
because the negative pattern `advertisement` is checked first. -/
theorem classifier_length_and_options_counterexample :
    150 ≤ c7AdPage.length
    ∧ containsSeq (List.cons 'a' [')']) (pyLower c7AdPage) = true
    ∧ containsSeq (List.cons 'b' [')']) (pyLower c7AdPage) = true
    ∧ containsSeq (List.cons 'c' [')']) (pyLower c7AdPage) = true
    ∧ containsSeq (List.cons 'd' [')']) (pyLower c7AdPage) = true
    ∧ searchWithPrev (matchOptionTok ')') false (pyLower c7AdPage) = true
    ∧ 50 ≤ (pyStrip (pyLower c7AdPage)).length
    ∧ is_question_page c7AdPage = false := by
  refine ⟨?_, ?_, ?_, ?_, ?_, ?_, ?_, ?_⟩ <;> decide

set_option maxRecDepth 40000 in
/-- Witness for `classifier_signal_precedence`: the hypotheses are discharged
on the concrete answer-key page (part a) and question page (part b). -/
theorem classifier_signal_precedence_witness :
    matchAnswerKeyStart (pyLower c7AnswerKeyPage) = true
    ∧ is_question_page c7AnswerKeyPage = false
    ∧ 50 ≤ (pyStrip (pyLower c7QuestionPage)).length
    ∧ nonQuestionMatch (pyLower c7QuestionPage) = false
    ∧ searchWithPrev (matchOptionTok ')') false (pyLower c7QuestionPage) = true
    ∧ is_question_page c7QuestionPage = true :=
  ⟨by decide,
    (classifier_signal_precedence c7AnswerKeyPage).1 (by decide),
    by decide, by decide, by decide,
    (classifier_signal_precedence c7QuestionPage).2 (by decide) (by decide) (by decide)⟩

end SatPlatform
